import Mathlib

/-!
Verification of the citizenteam/mcp deployment agent (TypeScript sources under
`src/`).  The stateful core — the server/app routing cache of
`src/index.ts` (`CitizenMCPServer`) — is embedded as explicit state passing
over `MCPState`; network exchanges are oracles passed as arguments, and the
number of HTTP requests issued by an operation is threaded through the
`Step` result so that "zero network calls" claims are provable.
All JavaScript truthiness idioms of the source (`app.app_name || app.name`,
`if (result.run_id)`, `data.data || data`) are modelled faithfully.
-/

set_option autoImplicit false

namespace CitizenMCP

/-- A server descriptor as returned by the discovery endpoint
(`CitizenServer` in `types.ts`; only the fields the agent reads). -/
structure CitizenServer where
  slug : String
  domain : String
  deriving Repr, DecidableEq

/-- `https://` base URL derived from a server's domain
(`const serverUrl = https-prefix + server.domain` in `index.ts`). -/
def serverBaseUrl (s : CitizenServer) : String :=
  "https://" ++ s.domain

/-- Value type of the app→server map (`AppWithServer` in `types.ts`). -/
structure AppWithServer where
  app_name : String
  status : Option String
  server_url : String
  server_slug : String
  deriving Repr, DecidableEq

/-- Association-list model of a JavaScript `Map` keyed by strings.
Insertion order is preserved; `mapSet` overwrites in place like `Map.set`. -/
abbrev StrMap (β : Type) : Type := List (String × β)

/-- `Map.get`: first entry with the given key, if any. -/
def mapGet {β : Type} : StrMap β → String → Option β
  | [], _ => none
  | (k', v) :: rest, k => if k' = k then some v else mapGet rest k

/-- `Map.set`: overwrite the existing entry for the key in place, or append. -/
def mapSet {β : Type} : StrMap β → String → β → StrMap β
  | [], k, v => [(k, v)]
  | (k', v') :: rest, k, v =>
      if k' = k then (k, v) :: rest else (k', v') :: mapSet rest k v

/-- The mutable cache of `CitizenMCPServer`: the server set, the
app→server map and the run→server map (`index.ts` fields `servers`,
`appServerMap`, `runServerMap`). -/
structure MCPState where
  servers : List CitizenServer
  appServerMap : StrMap AppWithServer
  runServerMap : StrMap String
  deriving Repr, DecidableEq

/-- Errors surfaced by the handlers (each corresponds to a `throw new
Error(...)` site in `index.ts`). -/
inductive MCPErr where
  /-- `Failed to fetch servers: status` from `fetchServers`. -/
  | fetchServersFailed (status : Nat)
  /-- `App ... not found. Use list_apps to see available apps.` -/
  | appNotFound (name : String)
  /-- `Deployment run ... not found on any server.` -/
  | runNotFoundOnAnyServer (runId : String)
  /-- `Deployment failed: status body` / `Deploy failed` / `Upload failed`. -/
  | deployFailed (status : Nat) (body : String)
  /-- Any other non-2xx API response surfaced with its status. -/
  | httpFailed (status : Nat)
  deriving Repr, DecidableEq

/-- Result of running one handler: the state after the call, the number of
HTTP requests issued, and the outcome (`Except` models `throw`). -/
structure Step (α : Type) where
  st : MCPState
  calls : Nat
  res : Except MCPErr α

/-- One element of a per-server app listing response: the remote payload is
loosely typed, each entry being either a bare name string or an object
carrying `app_name`/`name`/`status` fields (any of which may be absent). -/
inductive AppEntry where
  | str (s : String)
  | obj (app_name : Option String) (name : Option String) (status : Option String)
  deriving Repr, DecidableEq

/-- JavaScript `a || b` on two optional strings: `undefined` and the empty
string are falsy. -/
def jsOr (a b : Option String) : Option String :=
  match a with
  | some s => if s = "" then b else some s
  | none => b

/-- `typeof app === string ? app : (app.app_name || app.name)`. -/
def appEntryName : AppEntry → Option String
  | .str s => some s
  | .obj an n _ => jsOr an n

/-- `typeof app === object ? app.status : undefined`. -/
def appEntryStatus : AppEntry → Option String
  | .str _ => none
  | .obj _ _ st => st

/-- Insert one server's app entries into the app→server map: entries whose
extracted name is falsy (`undefined` or empty) are skipped, others are
`Map.set` with the server's base URL and slug (loop body of
`handleListApps`). -/
def insertApps (server : CitizenServer) (entries : List AppEntry)
    (m : StrMap AppWithServer) : StrMap AppWithServer :=
  entries.foldl
    (fun m e =>
      match appEntryName e with
      | some n =>
          if n = "" then m
          else mapSet m n ⟨n, appEntryStatus e, serverBaseUrl server, server.slug⟩
      | none => m)
    m

/-- One group of the `allApps` accumulator of `handleListApps`:
server slug, server URL, and the (possibly partially nameless) list of
extracted app names. -/
structure ServerApps where
  serverSlug : String
  serverUrl : String
  apps : List (Option String)
  deriving Repr, DecidableEq

/-- Outcome of `handleListApps`: the early "no servers" message, the
"no apps found" message, or the listing with its aggregate count. -/
inductive ListRes where
  | noServersMsg
  | noAppsMsg
  | listing (total : Nat) (groups : List ServerApps)
  deriving Repr, DecidableEq

/-- The per-server fan-out of `handleListApps` after the server set is
known: clear the app→server map, then for each server fetch its app list
(one HTTP call each); a failed call (network error or non-2xx) is logged
and skipped, a successful one contributes its entries to the map and to
`allApps`.  `appsResp s = none` models both failure modes.  `listAppsStep` is the loop
body for one server: a failed call leaves the accumulator unchanged, a
successful one appends the group to `allApps` and inserts its entries. -/
def listAppsStep (appsResp : CitizenServer → Option (List AppEntry))
    (acc : List ServerApps × StrMap AppWithServer) (server : CitizenServer) :
    List ServerApps × StrMap AppWithServer :=
  match appsResp server with
  | none => acc
  | some entries =>
      (acc.1 ++ [⟨server.slug, serverBaseUrl server, entries.map appEntryName⟩],
       insertApps server entries acc.2)

/-- The body of `handleListApps` after the discovery step: return the
"no servers" message if the set is still empty, else clear the app→server
map, fan out over every known server (one HTTP call each) and rebuild the
map and the `allApps` grouping from the responses alone. -/
def listAppsCore (st : MCPState)
    (appsResp : CitizenServer → Option (List AppEntry)) (calls0 : Nat) :
    Step ListRes :=
  if st.servers.isEmpty then
    ⟨st, calls0, .ok .noServersMsg⟩
  else
    let folded := st.servers.foldl (listAppsStep appsResp) ([], [])
    let st2 : MCPState := { st with appServerMap := folded.2 }
    let total := (folded.1.map (fun g => g.apps.length)).sum
    let calls := calls0 + st.servers.length
    if total = 0 then ⟨st2, calls, .ok .noAppsMsg⟩
    else ⟨st2, calls, .ok (.listing total folded.1)⟩

/-- `handleListApps`: refresh the server set only if it is empty (one
discovery call, propagating its failure with the state untouched); return
the "no servers" message before clearing anything if the set is still
empty; otherwise run the per-server fan-out. -/
def handleListApps (st : MCPState)
    (fetchSrv : Except Nat (List CitizenServer))
    (appsResp : CitizenServer → Option (List AppEntry)) : Step ListRes :=
  if st.servers.isEmpty then
    match fetchSrv with
    | .error status => ⟨st, 1, .error (.fetchServersFailed status)⟩
    | .ok ss => listAppsCore { st with servers := ss } appsResp 1
  else
    listAppsCore st appsResp 0

/-- `getServerUrlForApp`: cache-first lookup in the app→server map; on a
miss run one full `handleListApps` refresh and retry the lookup once,
failing with the distinguishable app-not-found error if still missing. -/
def getServerUrlForApp (st : MCPState) (appName : String)
    (fetchSrv : Except Nat (List CitizenServer))
    (appsResp : CitizenServer → Option (List AppEntry)) : Step String :=
  match mapGet st.appServerMap appName with
  | some info => ⟨st, 0, .ok info.server_url⟩
  | none =>
      let r := handleListApps st fetchSrv appsResp
      match r.res with
      | .error e => ⟨r.st, r.calls, .error e⟩
      | .ok _ =>
          match mapGet r.st.appServerMap appName with
          | some info => ⟨r.st, r.calls, .ok info.server_url⟩
          | none => ⟨r.st, r.calls, .error (.appNotFound appName)⟩

/-- Linear probe of `getServerUrlForRun`: try each server in iteration
order with one run-status GET; a per-server failure (network error caught,
or non-2xx) is swallowed and probing continues (`probe s = false` models
both); the first 2xx memoizes the run→server association and returns its
URL; exhaustion raises the distinguishable not-found-on-any-server error. -/
def probeServers (runId : String) (probe : CitizenServer → Bool) :
    List CitizenServer → MCPState → Step String
  | [], st => ⟨st, 0, .error (.runNotFoundOnAnyServer runId)⟩
  | s :: rest, st =>
      if probe s then
        ⟨{ st with runServerMap := mapSet st.runServerMap runId (serverBaseUrl s) },
         1, .ok (serverBaseUrl s)⟩
      else
        let r := probeServers runId probe rest st
        ⟨r.st, r.calls + 1, r.res⟩

/-- `getServerUrlForRun`: cache-first lookup in the run→server map; on a
miss refresh the server set only if it is empty (one discovery call,
propagating its failure), then linearly probe every known server. -/
def getServerUrlForRun (st : MCPState) (runId : String)
    (fetchSrv : Except Nat (List CitizenServer))
    (probe : CitizenServer → Bool) : Step String :=
  match mapGet st.runServerMap runId with
  | some url => ⟨st, 0, .ok url⟩
  | none =>
      if st.servers.isEmpty then
        match fetchSrv with
        | .error status => ⟨st, 1, .error (.fetchServersFailed status)⟩
        | .ok ss =>
            let r := probeServers runId probe ss { st with servers := ss }
            ⟨r.st, r.calls + 1, r.res⟩
      else
        probeServers runId probe st.servers st

/-- The payload of a deploy response the agent reads (`result.run_id`,
`result.status`); either field may be absent. -/
structure DeployData where
  run_id : Option String
  status : Option String
  deriving Repr, DecidableEq

/-- JavaScript truthiness of an optional string (`if (result.run_id)`):
`undefined` and the empty string are falsy. -/
def jsTruthyStr : Option String → Bool
  | some s => s ≠ ""
  | none => false

/-- Record a run→server association if the response carried a truthy
`run_id` (`if (result.run_id) this.runServerMap.set(result.run_id, url)`). -/
def cacheRunId (st : MCPState) (rid : Option String) (url : String) : MCPState :=
  match rid with
  | some r => if r = "" then st else { st with runServerMap := mapSet st.runServerMap r url }
  | none => st

/-- `handleDeployFromGit`: resolve the app's server, POST the deploy
request (one call), fail on non-2xx with status and body text, else cache
the returned run id against the server URL. -/
def handleDeployFromGit (st : MCPState) (appName : String)
    (fetchSrv : Except Nat (List CitizenServer))
    (appsResp : CitizenServer → Option (List AppEntry))
    (deployResp : Except (Nat × String) DeployData) : Step DeployData :=
  let r := getServerUrlForApp st appName fetchSrv appsResp
  match r.res with
  | .error e => ⟨r.st, r.calls, .error e⟩
  | .ok url =>
      match deployResp with
      | .error sb => ⟨r.st, r.calls + 1, .error (.deployFailed sb.1 sb.2)⟩
      | .ok d => ⟨cacheRunId r.st d.run_id url, r.calls + 1, .ok d⟩

/-- `handleDeployFromLocal`: resolve the app's server, upload the archive
(one call; archive creation and deletion are filesystem effects outside
this state model), POST the local deploy (one call), and cache the
returned run id.  Failure of either call surfaces its status and body. -/
def handleDeployFromLocal (st : MCPState) (appName : String)
    (fetchSrv : Except Nat (List CitizenServer))
    (appsResp : CitizenServer → Option (List AppEntry))
    (uploadResp : Except (Nat × String) String)
    (deployResp : Except (Nat × String) DeployData) : Step DeployData :=
  let r := getServerUrlForApp st appName fetchSrv appsResp
  match r.res with
  | .error e => ⟨r.st, r.calls, .error e⟩
  | .ok url =>
      match uploadResp with
      | .error sb => ⟨r.st, r.calls + 1, .error (.deployFailed sb.1 sb.2)⟩
      | .ok _filename =>
          match deployResp with
          | .error sb => ⟨r.st, r.calls + 2, .error (.deployFailed sb.1 sb.2)⟩
          | .ok d => ⟨cacheRunId r.st d.run_id url, r.calls + 2, .ok d⟩

/-- `handleGetDeploymentStatus`: resolve the run's server (probing if
needed), then GET the run detail (one call); the detail body is only
formatted for display, so it is modelled as opaque. -/
def handleGetDeploymentStatus (st : MCPState) (runId : String)
    (fetchSrv : Except Nat (List CitizenServer))
    (probe : CitizenServer → Bool)
    (statusResp : Except Nat Unit) : Step Unit :=
  let r := getServerUrlForRun st runId fetchSrv probe
  match r.res with
  | .error e => ⟨r.st, r.calls, .error e⟩
  | .ok _url =>
      match statusResp with
      | .error status => ⟨r.st, r.calls + 1, .error (.httpFailed status)⟩
      | .ok d => ⟨r.st, r.calls + 1, .ok d⟩

/-- One element of a run-listing response; the agent reads `run_id`,
`status` and `created_at`. -/
structure RunEntry where
  run_id : Option String
  status : Option String
  created_at : Option String
  deriving Repr, DecidableEq

/-- `handleListDeploymentRuns`: resolve the app's server, GET its runs
(one call), and `Map.set` every returned run with a truthy `run_id`
against that server's URL. -/
def handleListDeploymentRuns (st : MCPState) (appName : String)
    (fetchSrv : Except Nat (List CitizenServer))
    (appsResp : CitizenServer → Option (List AppEntry))
    (runsResp : Except Nat (List RunEntry)) : Step (List RunEntry) :=
  let r := getServerUrlForApp st appName fetchSrv appsResp
  match r.res with
  | .error e => ⟨r.st, r.calls, .error e⟩
  | .ok url =>
      match runsResp with
      | .error status => ⟨r.st, r.calls + 1, .error (.httpFailed status)⟩
      | .ok runs =>
          ⟨runs.foldl (fun s run => cacheRunId s run.run_id url) r.st,
           r.calls + 1, .ok runs⟩

/-- `handleGetAppInfo`: resolve the app's server, then GET the app detail
(one call); the body is only formatted for display. -/
def handleGetAppInfo (st : MCPState) (appName : String)
    (fetchSrv : Except Nat (List CitizenServer))
    (appsResp : CitizenServer → Option (List AppEntry))
    (infoResp : Except Nat Unit) : Step Unit :=
  let r := getServerUrlForApp st appName fetchSrv appsResp
  match r.res with
  | .error e => ⟨r.st, r.calls, .error e⟩
  | .ok _url =>
      match infoResp with
      | .error status => ⟨r.st, r.calls + 1, .error (.httpFailed status)⟩
      | .ok d => ⟨r.st, r.calls + 1, .ok d⟩

/-- `handleListServers`: unconditionally call the discovery endpoint and
replace the in-memory server set; a failure propagates with the state
untouched. -/
def handleListServers (st : MCPState)
    (fetchSrv : Except Nat (List CitizenServer)) : Step (List CitizenServer) :=
  match fetchSrv with
  | .error status => ⟨st, 1, .error (.fetchServersFailed status)⟩
  | .ok ss => ⟨{ st with servers := ss }, 1, .ok ss⟩

/-- The persisted credential bundle (`DeviceAuthConfig` in `types.ts`,
organization fields flattened). -/
structure DeviceAuthConfig where
  access_token : String
  token_type : String
  expires_at : Int
  user_name : String
  org_id : String
  org_name : String
  org_role : String
  deriving Repr, DecidableEq

/-- `handleAuthenticate`: run the device flow; on success store the new
bundle and clear all three cached structures; if the flow throws, the
clears are never reached and the state is untouched. -/
def handleAuthenticate (st : MCPState) (authRes : Option DeviceAuthConfig) :
    MCPState × Option DeviceAuthConfig :=
  match authRes with
  | none => (st, none)
  | some cfg => (⟨[], [], []⟩, some cfg)

/-- One state-mutating tool operation other than `authenticate`, packaged
with the network oracles it consumes (for stating frame/growth invariants
uniformly over the dispatcher's operations). -/
inductive Op where
  | deployGit (appName : String) (fetchSrv : Except Nat (List CitizenServer))
      (appsResp : CitizenServer → Option (List AppEntry))
      (deployResp : Except (Nat × String) DeployData)
  | deployLocal (appName : String) (fetchSrv : Except Nat (List CitizenServer))
      (appsResp : CitizenServer → Option (List AppEntry))
      (uploadResp : Except (Nat × String) String)
      (deployResp : Except (Nat × String) DeployData)
  | getStatus (runId : String) (fetchSrv : Except Nat (List CitizenServer))
      (probe : CitizenServer → Bool) (statusResp : Except Nat Unit)
  | listRuns (appName : String) (fetchSrv : Except Nat (List CitizenServer))
      (appsResp : CitizenServer → Option (List AppEntry))
      (runsResp : Except Nat (List RunEntry))
  | listServersOp (fetchSrv : Except Nat (List CitizenServer))
  | listAppsOp (fetchSrv : Except Nat (List CitizenServer))
      (appsResp : CitizenServer → Option (List AppEntry))
  | appInfo (appName : String) (fetchSrv : Except Nat (List CitizenServer))
      (appsResp : CitizenServer → Option (List AppEntry))
      (infoResp : Except Nat Unit)

/-- The cache state left behind by one operation (whether it succeeded or
threw: mutations made before a throw persist on the long-lived server
object). -/
def runOp : Op → MCPState → MCPState
  | .deployGit a f r d, st => (handleDeployFromGit st a f r d).st
  | .deployLocal a f r u d, st => (handleDeployFromLocal st a f r u d).st
  | .getStatus rid f p s, st => (handleGetDeploymentStatus st rid f p s).st
  | .listRuns a f r rs, st => (handleListDeploymentRuns st a f r rs).st
  | .listServersOp f, st => (handleListServers st f).st
  | .listAppsOp f r, st => (handleListApps st f r).st
  | .appInfo a f r i, st => (handleGetAppInfo st a f r i).st

/-- What `loadConfig` finds at the fixed per-user config path: the file is
absent, or present but unreadable/malformed (read or parse throws), or
holds a parsed bundle. -/
inductive ConfigFile where
  | absent
  | unreadableOrMalformed
  | content (cfg : DeviceAuthConfig)
  deriving Repr, DecidableEq

/-- `loadConfig` of `device-flow.ts`: nothing if the file is absent,
unreadable or malformed; an expired bundle (`Date.now() > expires_at`) is
reported with a diagnostic notice and treated as absent; otherwise the
bundle.  `now` is the wall-clock time at load in epoch milliseconds. -/
def loadConfig (file : ConfigFile) (now : Int) : Option DeviceAuthConfig :=
  match file with
  | .absent => none
  | .unreadableOrMalformed => none
  | .content cfg => if now > cfg.expires_at then none else some cfg

/-- Terminal failure modes of the device-authorization flow. -/
inductive AuthErr where
  | statusCheckFailed
  | expired
  | denied
  | timeout
  deriving Repr, DecidableEq

/-- The poll loop of `DeviceAuthFlow.authenticate` (steps 3–4 of the
device flow).  `statusAt n` is the provider's answer to the n-th status
poll: `none` models a non-2xx status response (which throws), `some s` the
reported status string.  The fuel is the remaining allowance out of
`maxAttempts = 180`; exhausting it yields the timeout error.  The first
component counts the status polls actually issued. -/
def pollLoop (statusAt : Nat → Option String) :
    Nat → Nat → Nat × Except AuthErr Unit
  | 0, _ => (0, .error .timeout)
  | fuel + 1, attempts =>
      match statusAt attempts with
      | none => (1, .error .statusCheckFailed)
      | some s =>
          if s = "authorized" then (1, .ok ())
          else if s = "expired" then (1, .error .expired)
          else if s = "denied" then (1, .error .denied)
          else
            let r := pollLoop statusAt fuel (attempts + 1)
            (r.1 + 1, r.2)

/-- The authorization poll as `authenticate` runs it: up to 180 attempts
starting from attempt 0. -/
def devicePoll (statusAt : Nat → Option String) : Nat × Except AuthErr Unit :=
  pollLoop statusAt 180 0

/-- A status string on which the poll loop keeps polling (anything other
than the three terminal states). -/
def nonTerminalStatus (s : String) : Prop :=
  s ≠ "authorized" ∧ s ≠ "expired" ∧ s ≠ "denied"

/-- A JSON value, for the Remote API Gateway's envelope handling. -/
inductive JsonVal where
  | null
  | bool (b : Bool)
  | num (n : Int)
  | str (s : String)
  | arr (elems : List JsonVal)
  | obj (fields : List (String × JsonVal))

/-- JavaScript truthiness of a JSON value (integer numbers: only zero is
falsy). -/
def jsTruthyVal : JsonVal → Bool
  | .null => false
  | .bool b => b
  | .num n => n ≠ 0
  | .str s => s ≠ ""
  | .arr _ => true
  | .obj _ => true

/-- Property access `v.data`-style: a field of an object if present,
otherwise `undefined` (`none`); non-objects have no fields. -/
def jsProp : JsonVal → String → Option JsonVal
  | .obj fields, k => mapGet fields k
  | _, _ => none

/-- The Gateway's envelope unwrapping `data.data || data`: the `data`
field if it is present and truthy, else the raw body. -/
def unwrapData (body : JsonVal) : JsonVal :=
  match jsProp body "data" with
  | some v => if jsTruthyVal v then v else body
  | none => body

/-- An HTTP response as the Gateway sees it: status code, parsed JSON
body, and the raw body text used in error messages. -/
structure HttpResponse where
  status : Nat
  body : JsonVal
  bodyText : String

/-- `response.ok`: status in the 2xx–3xx success range [200, 300). -/
def respOk (r : HttpResponse) : Bool :=
  decide (200 ≤ r.status) && decide (r.status < 300)

/-- `CitizenAPIClient.get`: on a non-2xx response fail with the status and
raw body text, else return the unwrapped payload. -/
def clientGet (r : HttpResponse) : Except (Nat × String) JsonVal :=
  if respOk r then .ok (unwrapData r.body) else .error (r.status, r.bodyText)

/-- `CitizenAPIClient.post`: same response handling as `get` (the request
body is serialized and sent but does not affect the response handling). -/
def clientPost (_reqBody : JsonVal) (r : HttpResponse) :
    Except (Nat × String) JsonVal :=
  if respOk r then .ok (unwrapData r.body) else .error (r.status, r.bodyText)

/-- The app→server map contribution of a list of servers given their
responses, folded left over an initial map (characterizes the second
component of the `listAppsStep` fold). -/
def appMapFold (appsResp : CitizenServer → Option (List AppEntry)) :
    List CitizenServer → StrMap AppWithServer → StrMap AppWithServer
  | [], m => m
  | s :: rest, m =>
      match appsResp s with
      | none => appMapFold appsResp rest m
      | some entries => appMapFold appsResp rest (insertApps s entries m)

/-- The app→server map a refresh builds from scratch out of the given
servers and their responses. -/
def appMapOf (appsResp : CitizenServer → Option (List AppEntry))
    (servers : List CitizenServer) : StrMap AppWithServer :=
  appMapFold appsResp servers []

/-- The servers whose app-listing call succeeded. -/
def succeedingServers (appsResp : CitizenServer → Option (List AppEntry))
    (servers : List CitizenServer) : List CitizenServer :=
  servers.filter (fun s => (appsResp s).isSome)

/-- The aggregate app count over the servers whose call succeeded. -/
def totalAppsOf (appsResp : CitizenServer → Option (List AppEntry))
    (servers : List CitizenServer) : Nat :=
  ((succeedingServers appsResp servers).map
    (fun s => ((appsResp s).getD []).length)).sum

/-- The aggregate app count a `ListRes` reports (the message variants
report zero apps). -/
def reportedTotal : ListRes → Nat
  | .noServersMsg => 0
  | .noAppsMsg => 0
  | .listing total _ => total

/-- A concrete server for witnesses and counterexamples. -/
def srvA : CitizenServer := ⟨"a", "a.example.com"⟩

/-- A second concrete server for witnesses and counterexamples. -/
def srvB : CitizenServer := ⟨"b", "b.example.com"⟩

/-- A cache state whose app→server map already knows the app `blog`. -/
def stHit : MCPState :=
  ⟨[], [("blog", ⟨"blog", none, "https://s1.example.com", "s1"⟩)], []⟩

/-- A cache state that knows server `b`, maps `blog` to it, and maps run
`r1` to server `a`'s URL. -/
def stRuns : MCPState :=
  ⟨[srvB], [("blog", ⟨"blog", none, "https://b.example.com", "b"⟩)],
   [("r1", "https://a.example.com")]⟩

/-- A run-listing operation on `blog` whose response reports run `r1`
(which `stRuns` already attributes to server `a`). -/
def opRunsB : Op :=
  .listRuns "blog" (.ok [srvB]) (fun _ => none)
    (.ok [⟨some "r1", some "completed", none⟩])

/-- A concrete credential bundle expiring at epoch instant 100. -/
def cfgAt100 : DeviceAuthConfig :=
  ⟨"tok", "Bearer", 100, "u", "o1", "org", "admin"⟩

/-- A 2xx response whose JSON body carries a falsy `data` field. -/
def falsyDataResp : HttpResponse :=
  ⟨200, .obj [("data", .bool false)], ""⟩

/-- A 2xx response whose JSON body carries a truthy `data` field. -/
def truthyDataResp : HttpResponse :=
  ⟨200, .obj [("data", .str "payload")], ""⟩

end CitizenMCP

namespace CitizenMCP

/-- C1: a cache hit in the app→server map returns the cached URL with zero
network calls and the state (all three cached structures) unchanged. -/
theorem getServerUrlForApp_cache_hit (st : MCPState) (appName : String)
    (info : AppWithServer)
    (fetchSrv : Except Nat (List CitizenServer))
    (appsResp : CitizenServer → Option (List AppEntry))
    (h : mapGet st.appServerMap appName = some info) :
    getServerUrlForApp st appName fetchSrv appsResp =
      ⟨st, 0, .ok info.server_url⟩ := by
  unfold getServerUrlForApp
  rw [h]

theorem mapGet_mapSet_self {β : Type} (m : StrMap β) (k : String) (v : β) :
    mapGet (mapSet m k v) k = some v := by
  induction m with
  | nil => simp [mapSet, mapGet]
  | cons hd tl ih =>
      obtain ⟨a, b⟩ := hd
      by_cases h : a = k <;> simp [mapSet, mapGet, h, ih]

theorem mapGet_mapSet_ne {β : Type} (m : StrMap β) (k k' : String) (v : β)
    (h : k' ≠ k) : mapGet (mapSet m k v) k' = mapGet m k' := by
  induction m with
  | nil => simp [mapSet, mapGet, Ne.symm h]
  | cons hd tl ih =>
      obtain ⟨a, b⟩ := hd
      by_cases ha : a = k
      · subst ha
        simp [mapSet, mapGet, Ne.symm h]
      · simp [mapSet, mapGet, ha, ih]

theorem isSome_mapGet_mapSet {β : Type} (m : StrMap β) (k k' : String) (v : β)
    (h : (mapGet m k').isSome = true) :
    (mapGet (mapSet m k v) k').isSome = true := by
  by_cases hk : k' = k
  · subst hk; simp [mapGet_mapSet_self]
  · rw [mapGet_mapSet_ne m k k' v hk]; exact h

theorem isEmpty_eq_false_of_ne {α : Type} (l : List α) (h : l ≠ []) :
    l.isEmpty = false := by
  cases l with
  | nil => exact absurd rfl h
  | cons a t => rfl

theorem foldl_listAppsStep_snd
    (appsResp : CitizenServer → Option (List AppEntry)) :
    ∀ (l : List CitizenServer) (acc : List ServerApps × StrMap AppWithServer),
      (l.foldl (listAppsStep appsResp) acc).2 = appMapFold appsResp l acc.2 := by
  intro l
  induction l with
  | nil => intro acc; rfl
  | cons s rest ih =>
      intro acc
      cases hr : appsResp s <;>
        simp [List.foldl_cons, listAppsStep, appMapFold, hr, ih]

theorem foldl_listAppsStep_total
    (appsResp : CitizenServer → Option (List AppEntry)) :
    ∀ (l : List CitizenServer) (acc : List ServerApps × StrMap AppWithServer),
      ((l.foldl (listAppsStep appsResp) acc).1.map
        (fun g => g.apps.length)).sum =
      (acc.1.map (fun g => g.apps.length)).sum + totalAppsOf appsResp l := by
  intro l
  induction l with
  | nil => intro acc; simp [totalAppsOf, succeedingServers]
  | cons s rest ih =>
      intro acc
      cases hr : appsResp s with
      | none =>
          simp [List.foldl_cons, listAppsStep, hr, ih, totalAppsOf,
            succeedingServers, List.filter]
      | some entries =>
          simp only [List.foldl_cons, listAppsStep, hr, ih]
          simp [totalAppsOf, succeedingServers, List.filter, hr]
          omega

theorem listAppsCore_st (st : MCPState)
    (appsResp : CitizenServer → Option (List AppEntry)) (calls0 : Nat)
    (hne : st.servers ≠ []) :
    (listAppsCore st appsResp calls0).st =
      { st with appServerMap := appMapOf appsResp st.servers } := by
  unfold listAppsCore
  rw [isEmpty_eq_false_of_ne st.servers hne]
  simp only [Bool.false_eq_true, if_false]
  split <;> simp [foldl_listAppsStep_snd, appMapOf]

theorem listAppsCore_total (st : MCPState)
    (appsResp : CitizenServer → Option (List AppEntry)) (calls0 : Nat)
    (hne : st.servers ≠ []) :
    ∃ r, (listAppsCore st appsResp calls0).res = .ok r ∧
      reportedTotal r = totalAppsOf appsResp st.servers := by
  unfold listAppsCore
  rw [isEmpty_eq_false_of_ne st.servers hne]
  simp only [Bool.false_eq_true, if_false]
  have htot := foldl_listAppsStep_total appsResp st.servers ([], [])
  simp only [List.map_nil, List.sum_nil, Nat.zero_add] at htot
  split
  · rename_i hzero
    exact ⟨.noAppsMsg, rfl, by simp [reportedTotal, ← htot, hzero]⟩
  · rename_i hnz
    exact ⟨_, rfl, by simp [reportedTotal, htot]⟩

theorem listAppsCore_runMap (st : MCPState)
    (appsResp : CitizenServer → Option (List AppEntry)) (calls0 : Nat) :
    (listAppsCore st appsResp calls0).st.runServerMap = st.runServerMap := by
  unfold listAppsCore
  split
  · rfl
  · dsimp only
    split <;> rfl

theorem listAppsCore_servers (st : MCPState)
    (appsResp : CitizenServer → Option (List AppEntry)) (calls0 : Nat) :
    (listAppsCore st appsResp calls0).st.servers = st.servers := by
  unfold listAppsCore
  split
  · rfl
  · dsimp only
    split <;> rfl

theorem handleListApps_st (st : MCPState)
    (fetchSrv : Except Nat (List CitizenServer))
    (appsResp : CitizenServer → Option (List AppEntry))
    (hne : st.servers ≠ []) :
    (handleListApps st fetchSrv appsResp).st =
      { st with appServerMap := appMapOf appsResp st.servers } := by
  unfold handleListApps
  rw [isEmpty_eq_false_of_ne st.servers hne]
  simp only [Bool.false_eq_true, if_false]
  exact listAppsCore_st st appsResp 0 hne

theorem handleListApps_total (st : MCPState)
    (fetchSrv : Except Nat (List CitizenServer))
    (appsResp : CitizenServer → Option (List AppEntry))
    (hne : st.servers ≠ []) :
    ∃ r, (handleListApps st fetchSrv appsResp).res = .ok r ∧
      reportedTotal r = totalAppsOf appsResp st.servers := by
  unfold handleListApps
  rw [isEmpty_eq_false_of_ne st.servers hne]
  simp only [Bool.false_eq_true, if_false]
  exact listAppsCore_total st appsResp 0 hne

theorem handleListApps_runMap (st : MCPState)
    (fetchSrv : Except Nat (List CitizenServer))
    (appsResp : CitizenServer → Option (List AppEntry)) :
    (handleListApps st fetchSrv appsResp).st.runServerMap =
      st.runServerMap := by
  unfold handleListApps
  split
  · split
    · rfl
    · exact listAppsCore_runMap _ appsResp 1
  · exact listAppsCore_runMap st appsResp 0

theorem getServerUrlForApp_runMap (st : MCPState) (appName : String)
    (fetchSrv : Except Nat (List CitizenServer))
    (appsResp : CitizenServer → Option (List AppEntry)) :
    (getServerUrlForApp st appName fetchSrv appsResp).st.runServerMap =
      st.runServerMap := by
  unfold getServerUrlForApp
  split
  · rfl
  · dsimp only
    split
    · exact handleListApps_runMap st fetchSrv appsResp
    · split <;> exact handleListApps_runMap st fetchSrv appsResp

theorem mapGet_insertApps_none (server : CitizenServer)
    (entries : List AppEntry) (m : StrMap AppWithServer) (n : String)
    (hm : mapGet m n = none)
    (h : ∀ e ∈ entries, ¬(appEntryName e = some n ∧ n ≠ "")) :
    mapGet (insertApps server entries m) n = none := by
  induction entries generalizing m with
  | nil => exact hm
  | cons e rest ih =>
      simp only [insertApps, List.foldl_cons]
      have hstep :
          mapGet
            (match appEntryName e with
             | some k =>
                 if k = "" then m
                 else mapSet m k ⟨k, appEntryStatus e, serverBaseUrl server, server.slug⟩
             | none => m) n = none := by
        cases he : appEntryName e with
        | none => exact hm
        | some k =>
            by_cases hk : k = ""
            · simp [hk, hm]
            · have hkn : k ≠ n := by
                intro hkn
                subst hkn
                exact h e (List.mem_cons_self e rest) ⟨he, hk⟩
              simp only [hk, if_false]
              rw [mapGet_mapSet_ne m k n _ (Ne.symm hkn)]
              exact hm
      exact ih _ hstep (fun e' he' => h e' (List.mem_cons_of_mem e he'))

theorem mapGet_appMapFold_none
    (appsResp : CitizenServer → Option (List AppEntry))
    (l : List CitizenServer) (m : StrMap AppWithServer) (n : String)
    (hm : mapGet m n = none)
    (h : ∀ s ∈ l, ∀ es, appsResp s = some es →
        ∀ e ∈ es, ¬(appEntryName e = some n ∧ n ≠ "")) :
    mapGet (appMapFold appsResp l m) n = none := by
  induction l generalizing m with
  | nil => exact hm
  | cons s rest ih =>
      cases hr : appsResp s with
      | none =>
          simp only [appMapFold, hr]
          exact ih _ hm (fun s' hs' => h s' (List.mem_cons_of_mem s hs'))
      | some es =>
          simp only [appMapFold, hr]
          exact ih _
            (mapGet_insertApps_none s es m n hm
              (h s (List.mem_cons_self s rest) es hr))
            (fun s' hs' => h s' (List.mem_cons_of_mem s hs'))

theorem appMapFold_filter
    (appsResp : CitizenServer → Option (List AppEntry)) :
    ∀ (l : List CitizenServer) (m : StrMap AppWithServer),
      appMapFold appsResp l m =
        appMapFold appsResp (succeedingServers appsResp l) m := by
  intro l
  induction l with
  | nil => intro m; rfl
  | cons s rest ih =>
      intro m
      cases hr : appsResp s <;>
        simp [appMapFold, succeedingServers, List.filter_cons, hr, ih]

/-- C3: two successive `handleListApps` refreshes over a non-empty server
set leave the app→server map containing exactly the map rebuilt from the
second refresh's responses — in particular, any name not returned by the
second refresh is absent, whatever the first refresh produced (the map is
cleared before repopulating, never merged). -/
theorem listApps_refresh_replaces (st0 : MCPState)
    (f1 f2 : Except Nat (List CitizenServer))
    (r1 r2 : CitizenServer → Option (List AppEntry))
    (hne : st0.servers ≠ []) :
    (handleListApps (handleListApps st0 f1 r1).st f2 r2).st.appServerMap =
      appMapOf r2 st0.servers ∧
    ∀ n, (∀ s ∈ st0.servers, ∀ es, r2 s = some es →
        ∀ e ∈ es, ¬(appEntryName e = some n ∧ n ≠ "")) →
      mapGet
        (handleListApps (handleListApps st0 f1 r1).st f2 r2).st.appServerMap
        n = none := by
  have hsrv : (handleListApps st0 f1 r1).st.servers = st0.servers := by
    rw [handleListApps_st st0 f1 r1 hne]
  have hne1 : (handleListApps st0 f1 r1).st.servers ≠ [] := by
    rw [hsrv]; exact hne
  have h2 := handleListApps_st (handleListApps st0 f1 r1).st f2 r2 hne1
  have hmap :
      (handleListApps (handleListApps st0 f1 r1).st f2 r2).st.appServerMap =
        appMapOf r2 st0.servers := by
    rw [h2]
    simp only []
    rw [hsrv]
  refine ⟨hmap, ?_⟩
  intro n hn
  rw [hmap]
  exact mapGet_appMapFold_none r2 st0.servers [] n rfl hn

/-- C3 witness: refreshing over one server with response `old`, then with
response `new`, leaves the map rebuilt purely from the `new` response. -/
theorem listApps_refresh_replaces_witness :
    (handleListApps
        (handleListApps ⟨[srvA], [], []⟩ (.ok [])
          (fun _ => some [.str "old"])).st
        (.ok []) (fun _ => some [.str "new"])).st.appServerMap =
      appMapOf (fun _ => some [.str "new"]) [srvA] :=
  (listApps_refresh_replaces ⟨[srvA], [], []⟩ (.ok []) (.ok [])
    (fun _ => some [.str "old"]) (fun _ => some [.str "new"])
    (by simp)).1

/-- C4: when one server's app-listing call fails while the rest succeed,
`handleListApps` still succeeds, the reported aggregate count is the sum
over the succeeding servers, the map is built from the succeeding servers
only, and the failing server contributes nothing. -/
theorem listApps_partial_failure (st : MCPState)
    (fetchSrv : Except Nat (List CitizenServer))
    (appsResp : CitizenServer → Option (List AppEntry))
    (b : CitizenServer)
    (hb : b ∈ st.servers) (hfail : appsResp b = none)
    (hsucc : ∀ s ∈ st.servers, s ≠ b → (appsResp s).isSome = true)
    (hne : st.servers ≠ []) :
    (∃ r, (handleListApps st fetchSrv appsResp).res = .ok r ∧
        reportedTotal r = totalAppsOf appsResp st.servers) ∧
    (handleListApps st fetchSrv appsResp).st.appServerMap =
      appMapOf appsResp (succeedingServers appsResp st.servers) ∧
    b ∉ succeedingServers appsResp st.servers := by
  refine ⟨handleListApps_total st fetchSrv appsResp hne, ?_, ?_⟩
  · rw [handleListApps_st st fetchSrv appsResp hne]
    simp only []
    unfold appMapOf
    exact appMapFold_filter appsResp st.servers []
  · simp [succeedingServers, List.mem_filter, hfail]

/-- C4 witness: two servers, server `a` failing, server `b` returning one
app — the operation succeeds and the map comes from server `b` alone. -/
theorem listApps_partial_failure_witness :
    (handleListApps ⟨[srvA, srvB], [], []⟩ (.ok [])
        (fun s => if s.slug = "a" then none else some [.str "web"])).st.appServerMap =
      appMapOf (fun s => if s.slug = "a" then none else some [.str "web"])
        (succeedingServers
          (fun s => if s.slug = "a" then none else some [.str "web"])
          [srvA, srvB]) :=
  (listApps_partial_failure ⟨[srvA, srvB], [], []⟩ (.ok [])
    (fun s => if s.slug = "a" then none else some [.str "web"])
    srvA (by decide) (by decide) (by decide) (by simp)).2.1

/-- C10: a `handleListApps` call that finds the server set empty and whose
discovery also returns zero servers returns the "no servers" message
early: the app→server map (stale entries included) and the run→server map
are left exactly as they were, and only the (still empty) server set was
assigned. -/
theorem listApps_no_servers_frame (st : MCPState)
    (appsResp : CitizenServer → Option (List AppEntry))
    (h0 : st.servers = []) :
    handleListApps st (.ok []) appsResp = ⟨st, 1, .ok .noServersMsg⟩ := by
  cases st with
  | mk srv amap rmap =>
      have h : srv = [] := h0
      subst h
      rfl

/-- C10 witness: a stale app entry survives a listing that discovers zero
servers. -/
theorem listApps_no_servers_frame_witness :
    handleListApps
        ⟨[], [("stale", ⟨"stale", none, "https://old.example.com", "old"⟩)], []⟩
        (.ok []) (fun _ => none) =
      ⟨⟨[], [("stale", ⟨"stale", none, "https://old.example.com", "old"⟩)], []⟩,
       1, .ok .noServersMsg⟩ :=
  listApps_no_servers_frame
    ⟨[], [("stale", ⟨"stale", none, "https://old.example.com", "old"⟩)], []⟩
    (fun _ => none) rfl

theorem probeServers_found (runId : String) (probe : CitizenServer → Bool) :
    ∀ (l : List CitizenServer) (st : MCPState) (s : CitizenServer),
      l.find? probe = some s →
      (probeServers runId probe l st).res = .ok (serverBaseUrl s) ∧
      (probeServers runId probe l st).st =
        { st with runServerMap :=
            mapSet st.runServerMap runId (serverBaseUrl s) } := by
  intro l
  induction l with
  | nil => intro st s h; exact absurd h (by simp)
  | cons a rest ih =>
      intro st s h
      by_cases hp : probe a
      · rw [List.find?_cons_of_pos rest hp] at h
        cases h
        simp [probeServers, hp]
      · rw [List.find?_cons_of_neg rest hp] at h
        have := ih st s h
        simp only [probeServers, hp, Bool.false_eq_true, if_false]
        exact this

theorem probeServers_not_found (runId : String) (probe : CitizenServer → Bool) :
    ∀ (l : List CitizenServer) (st : MCPState),
      l.find? probe = none →
      probeServers runId probe l st =
        ⟨st, l.length, .error (.runNotFoundOnAnyServer runId)⟩ := by
  intro l
  induction l with
  | nil => intro st _; rfl
  | cons a rest ih =>
      intro st h
      by_cases hp : probe a
      · rw [List.find?_cons_of_pos rest hp] at h
        exact absurd h (by simp)
      · rw [List.find?_cons_of_neg rest hp] at h
        simp only [probeServers, hp, Bool.false_eq_true, if_false, ih st h,
          List.length_cons]

theorem getServerUrlForRun_cache_hit (st : MCPState) (runId : String)
    (fetchSrv : Except Nat (List CitizenServer))
    (probe : CitizenServer → Bool) (url : String)
    (h : mapGet st.runServerMap runId = some url) :
    getServerUrlForRun st runId fetchSrv probe = ⟨st, 0, .ok url⟩ := by
  unfold getServerUrlForRun
  rw [h]

theorem getServerUrlForRun_eq_probe (st : MCPState) (runId : String)
    (fetchSrv : Except Nat (List CitizenServer))
    (probe : CitizenServer → Bool) (ss : List CitizenServer)
    (hmiss : mapGet st.runServerMap runId = none)
    (hss : (if st.servers.isEmpty then fetchSrv else Except.ok st.servers) =
      Except.ok ss) :
    ∃ base : MCPState,
      base.runServerMap = st.runServerMap ∧ base.servers = ss ∧
      (getServerUrlForRun st runId fetchSrv probe).st =
        (probeServers runId probe ss base).st ∧
      (getServerUrlForRun st runId fetchSrv probe).res =
        (probeServers runId probe ss base).res := by
  unfold getServerUrlForRun
  rw [hmiss]
  cases hemp : st.servers.isEmpty with
  | true =>
      rw [hemp] at hss
      simp only [if_true] at hss
      simp only [hemp, if_true]
      rw [hss]
      exact ⟨{ st with servers := ss }, rfl, rfl, rfl, rfl⟩
  | false =>
      rw [hemp] at hss
      simp only [Bool.false_eq_true, if_false, Except.ok.injEq] at hss
      simp only [hemp, Bool.false_eq_true, if_false]
      rw [hss]
      exact ⟨st, rfl, hss, rfl, rfl⟩

/-- C2: on a run→server cache miss the agent refreshes the server set only
if it is empty (`ss` is the set actually probed), then probes the servers
in order: the first server answering 2xx has its URL memoized for the run
and returned — and a second resolution of the same run then returns from
the cache with zero calls — while, if no server answers 2xx (per-server
failures being swallowed), the operation fails with the distinguishable
run-not-found-on-any-server error. -/
theorem getServerUrlForRun_miss (st : MCPState) (runId : String)
    (fetchSrv : Except Nat (List CitizenServer))
    (probe : CitizenServer → Bool) (ss : List CitizenServer)
    (hmiss : mapGet st.runServerMap runId = none)
    (hss : (if st.servers.isEmpty then fetchSrv else Except.ok st.servers) =
      Except.ok ss) :
    (∀ s, ss.find? probe = some s →
        (getServerUrlForRun st runId fetchSrv probe).res =
          .ok (serverBaseUrl s) ∧
        (getServerUrlForRun st runId fetchSrv probe).st.servers = ss ∧
        mapGet (getServerUrlForRun st runId fetchSrv probe).st.runServerMap
          runId = some (serverBaseUrl s) ∧
        (∀ (f' : Except Nat (List CitizenServer)) (p' : CitizenServer → Bool),
          getServerUrlForRun (getServerUrlForRun st runId fetchSrv probe).st
              runId f' p' =
            ⟨(getServerUrlForRun st runId fetchSrv probe).st, 0,
             .ok (serverBaseUrl s)⟩)) ∧
    (ss.find? probe = none →
        (getServerUrlForRun st runId fetchSrv probe).res =
          .error (.runNotFoundOnAnyServer runId)) := by
  obtain ⟨base, hbm, hbs, hst, hres⟩ :=
    getServerUrlForRun_eq_probe st runId fetchSrv probe ss hmiss hss
  constructor
  · intro s hfind
    obtain ⟨hr, hstEq⟩ := probeServers_found runId probe ss base s hfind
    have hget : mapGet
        (getServerUrlForRun st runId fetchSrv probe).st.runServerMap runId =
        some (serverBaseUrl s) := by
      rw [hst, hstEq]
      exact mapGet_mapSet_self _ _ _
    refine ⟨by rw [hres, hr], ?_, hget, ?_⟩
    · rw [hst, hstEq]
      exact hbs
    · intro f' p'
      exact getServerUrlForRun_cache_hit _ runId f' p' _ hget
  · intro hnone
    rw [hres, probeServers_not_found runId probe ss base hnone]

/-- C2 witness: two servers with only `b` recognizing the run — resolution
returns `b`'s URL even though the discovery stub would fail. -/
theorem getServerUrlForRun_miss_witness :
    (getServerUrlForRun ⟨[srvA, srvB], [], []⟩ "r9" (.error 500)
        (fun s => s.slug == "b")).res = .ok (serverBaseUrl srvB) :=
  ((getServerUrlForRun_miss ⟨[srvA, srvB], [], []⟩ "r9" (.error 500)
      (fun s => s.slug == "b") [srvA, srvB] rfl rfl).1 srvB (by decide)).1

/-- C1 witness: with `blog` cached, resolution returns the cached URL with
zero calls and an unchanged state even against a transport stub that
fails every call. -/
theorem getServerUrlForApp_cache_hit_witness :
    getServerUrlForApp stHit "blog" (.error 500) (fun _ => none) =
      ⟨stHit, 0, .ok "https://s1.example.com"⟩ :=
  getServerUrlForApp_cache_hit stHit "blog"
    ⟨"blog", none, "https://s1.example.com", "s1"⟩ (.error 500)
    (fun _ => none) rfl

/-- C5: a successful re-authentication (the device flow completing with a
new credential bundle) leaves all three cached structures — server set,
app→server map, run→server map — empty, regardless of prior contents. -/
theorem authenticate_clears_caches (st : MCPState) (cfg : DeviceAuthConfig) :
    (handleAuthenticate st (some cfg)).1.servers = [] ∧
    (handleAuthenticate st (some cfg)).1.appServerMap = [] ∧
    (handleAuthenticate st (some cfg)).1.runServerMap = [] :=
  ⟨rfl, rfl, rfl⟩

/-- C6 counterexample: at the boundary instant — load time equal to the
expiry instant, so the expiry is not strictly in the future — `loadConfig`
still returns the bundle, against the claim's requirement that the bundle
be returned only when the load time is strictly less than the expiry. -/
theorem loadConfig_boundary_cex :
    loadConfig (.content cfgAt100) 100 = some cfgAt100 ∧
    ¬((100 : Int) < cfgAt100.expires_at) :=
  ⟨rfl, by decide⟩

/-- C6 (amended): `loadConfig` returns a bundle exactly when the file
holds that bundle and the load-time wall clock does not strictly exceed
its expiry instant; absent, unreadable and malformed files, and bundles
whose expiry the load time strictly exceeds, are treated as absent. -/
theorem loadConfig_expiry (file : ConfigFile) (now : Int)
    (cfg : DeviceAuthConfig) :
    loadConfig file now = some cfg ↔
      (file = .content cfg ∧ now ≤ cfg.expires_at) := by
  cases file with
  | absent => simp [loadConfig]
  | unreadableOrMalformed => simp [loadConfig]
  | content c =>
      simp only [loadConfig]
      constructor
      · intro hl
        split at hl
        · exact absurd hl (by simp)
        · rename_i hgt
          cases hl
          exact ⟨rfl, by omega⟩
      · rintro ⟨hc, hle⟩
        cases hc
        rw [if_neg (by omega)]

theorem pollLoop_nonterminal (statusAt : Nat → Option String) :
    ∀ (fuel a : Nat),
      (∀ i, i < fuel → ∃ s, statusAt (a + i) = some s ∧ nonTerminalStatus s) →
      pollLoop statusAt fuel a = (fuel, .error .timeout) := by
  intro fuel
  induction fuel with
  | zero => intro a _; rfl
  | succ f ih =>
      intro a h
      obtain ⟨s, hs, h1, h2, h3⟩ := h 0 (Nat.succ_pos f)
      rw [Nat.add_zero] at hs
      have hrec := ih (a + 1) (fun i hi => by
        have hh := h (i + 1) (by omega)
        have heq : a + (i + 1) = a + 1 + i := by omega
        rwa [heq] at hh)
      simp only [pollLoop, hs, if_neg h1, if_neg h2, if_neg h3, hrec]

theorem pollLoop_calls_le (statusAt : Nat → Option String) :
    ∀ (fuel a : Nat), (pollLoop statusAt fuel a).1 ≤ fuel := by
  intro fuel
  induction fuel with
  | zero => intro a; exact Nat.le_refl 0
  | succ f ih =>
      intro a
      simp only [pollLoop]
      cases statusAt a with
      | none => simp
      | some s =>
          by_cases h1 : s = "authorized"
          · simp [h1]
          · by_cases h2 : s = "expired"
            · simp [h1, h2]
            · by_cases h3 : s = "denied"
              · simp [h1, h2, h3]
              · simp only [if_neg h1, if_neg h2, if_neg h3]
                have := ih (a + 1)
                omega

/-- C7: if the provider's status endpoint reports a non-terminal state on
every poll, the device-authorization loop stops after the 180-attempt cap
with the timeout error; and no status sequence whatsoever is polled more
than 180 times. -/
theorem devicePoll_terminates (statusAt : Nat → Option String)
    (h : ∀ n, n < 180 → ∃ s, statusAt n = some s ∧ nonTerminalStatus s) :
    devicePoll statusAt = (180, .error .timeout) ∧
    ∀ g : Nat → Option String, (devicePoll g).1 ≤ 180 := by
  constructor
  · have hp := pollLoop_nonterminal statusAt 180 0
      (fun i hi => by simpa using h i hi)
    simpa [devicePoll] using hp
  · intro g
    exact pollLoop_calls_le g 180 0

/-- C7 witness: the constantly-pending status sequence times out at the
180-attempt cap. -/
theorem devicePoll_terminates_witness :
    devicePoll (fun _ => some "pending") = (180, .error .timeout) :=
  (devicePoll_terminates (fun _ => some "pending")
    (by intro n hn; exact ⟨"pending", rfl, by decide, by decide, by decide⟩)).1

/-- C8 counterexample: a 2xx response whose JSON body carries a `data`
field holding `false` — the Gateway returns the raw body rather than the
field's value, because the JavaScript unwrap `data.data || data` treats a
falsy field value as absent. -/
theorem clientGet_falsy_data_cex :
    respOk falsyDataResp = true ∧
    jsProp falsyDataResp.body "data" = some (.bool false) ∧
    clientGet falsyDataResp = .ok falsyDataResp.body ∧
    clientGet falsyDataResp ≠ .ok (JsonVal.bool false) :=
  ⟨rfl, rfl, rfl, fun h => JsonVal.noConfusion (Except.ok.inj h)⟩

/-- C8 (amended): on every 2xx response, `get` and `post` return the
unwrapped payload, where unwrapping yields the `data` field's value when
the field is present with a truthy value (not null, false, zero or the
empty string) and the raw body when the field is absent or falsy. -/
theorem client_unwrap_data (q : JsonVal) (r : HttpResponse)
    (hok : respOk r = true) :
    clientGet r = .ok (unwrapData r.body) ∧
    clientPost q r = .ok (unwrapData r.body) ∧
    (∀ v, jsProp r.body "data" = some v → jsTruthyVal v = true →
      unwrapData r.body = v) ∧
    (∀ v, jsProp r.body "data" = some v → jsTruthyVal v = false →
      unwrapData r.body = r.body) ∧
    (jsProp r.body "data" = none → unwrapData r.body = r.body) := by
  refine ⟨?_, ?_, ?_, ?_, ?_⟩
  · simp [clientGet, hok]
  · simp [clientPost, hok]
  · intro v hv ht
    simp [unwrapData, hv, ht]
  · intro v hv ht
    simp [unwrapData, hv, ht]
  · intro hn
    simp [unwrapData, hn]

/-- C8 witness: a 2xx response with a truthy `data` field is unwrapped to
that field's value. -/
theorem client_unwrap_data_witness :
    clientGet truthyDataResp = .ok (unwrapData truthyDataResp.body) ∧
    unwrapData truthyDataResp.body = .str "payload" :=
  ⟨(client_unwrap_data .null truthyDataResp rfl).1,
   (client_unwrap_data .null truthyDataResp rfl).2.2.1 (.str "payload") rfl rfl⟩

theorem isSome_mapGet_cacheRunId (st : MCPState) (rid : Option String)
    (url : String) (k : String)
    (h : (mapGet st.runServerMap k).isSome = true) :
    (mapGet (cacheRunId st rid url).runServerMap k).isSome = true := by
  cases rid with
  | none => exact h
  | some r =>
      by_cases hr : r = ""
      · simp only [cacheRunId, hr, if_true]
        exact h
      · simp only [cacheRunId, hr, if_false]
        exact isSome_mapGet_mapSet _ r k _ h

theorem isSome_mapGet_foldl_cacheRunId (url : String) (k : String) :
    ∀ (runs : List RunEntry) (st : MCPState),
      (mapGet st.runServerMap k).isSome = true →
      (mapGet
        ((runs.foldl (fun s run => cacheRunId s run.run_id url) st).runServerMap)
        k).isSome = true := by
  intro runs
  induction runs with
  | nil => intro st h; exact h
  | cons run rest ih =>
      intro st h
      exact ih _ (isSome_mapGet_cacheRunId st run.run_id url k h)

theorem isSome_mapGet_probeServers (runId : String)
    (probe : CitizenServer → Bool) (k : String) :
    ∀ (l : List CitizenServer) (st : MCPState),
      (mapGet st.runServerMap k).isSome = true →
      (mapGet (probeServers runId probe l st).st.runServerMap k).isSome =
        true := by
  intro l
  induction l with
  | nil => intro st h; exact h
  | cons a rest ih =>
      intro st h
      by_cases hp : probe a
      · simp only [probeServers, hp, if_true]
        exact isSome_mapGet_mapSet _ runId k _ h
      · simp only [probeServers, hp, Bool.false_eq_true, if_false]
        exact ih st h

theorem isSome_mapGet_getServerUrlForRun (st : MCPState) (runId : String)
    (fetchSrv : Except Nat (List CitizenServer))
    (probe : CitizenServer → Bool) (k : String)
    (h : (mapGet st.runServerMap k).isSome = true) :
    (mapGet (getServerUrlForRun st runId fetchSrv probe).st.runServerMap
      k).isSome = true := by
  unfold getServerUrlForRun
  split
  · exact h
  · split
    · split
      · exact h
      · dsimp only
        exact isSome_mapGet_probeServers runId probe k _ _ h
    · exact isSome_mapGet_probeServers runId probe k st.servers st h

theorem isSome_runMap_getServerUrlForApp (st : MCPState) (appName : String)
    (fetchSrv : Except Nat (List CitizenServer))
    (appsResp : CitizenServer → Option (List AppEntry)) (k : String)
    (h : (mapGet st.runServerMap k).isSome = true) :
    (mapGet (getServerUrlForApp st appName fetchSrv appsResp).st.runServerMap
      k).isSome = true := by
  rw [getServerUrlForApp_runMap st appName fetchSrv appsResp]
  exact h

/-- C9 (amended): across every operation other than a successful
re-authentication — deploy from git, deploy from local, get deployment
status, list deployment runs, list servers, list apps, get app info —
the run→server map's key set grows monotonically: every run id mapped
before the operation is still mapped after it (entries are added on
deploy, on listing runs and on a successful discovery probe, and never
removed within an authentication session). -/
theorem runServerMap_keys_monotone (op : Op) (st : MCPState) (k : String)
    (h : (mapGet st.runServerMap k).isSome = true) :
    (mapGet (runOp op st).runServerMap k).isSome = true := by
  cases op with
  | deployGit a f r d =>
      show (mapGet (handleDeployFromGit st a f r d).st.runServerMap k).isSome
        = true
      have hbase := isSome_runMap_getServerUrlForApp st a f r k h
      unfold handleDeployFromGit
      dsimp only
      split
      · exact hbase
      · split
        · exact hbase
        · exact isSome_mapGet_cacheRunId _ _ _ k hbase
  | deployLocal a f r u d =>
      show (mapGet (handleDeployFromLocal st a f r u d).st.runServerMap
        k).isSome = true
      have hbase := isSome_runMap_getServerUrlForApp st a f r k h
      unfold handleDeployFromLocal
      dsimp only
      split
      · exact hbase
      · split
        · exact hbase
        · split
          · exact hbase
          · exact isSome_mapGet_cacheRunId _ _ _ k hbase
  | getStatus rid f p s =>
      show (mapGet (handleGetDeploymentStatus st rid f p s).st.runServerMap
        k).isSome = true
      have hbase := isSome_mapGet_getServerUrlForRun st rid f p k h
      unfold handleGetDeploymentStatus
      dsimp only
      split
      · exact hbase
      · split
        · exact hbase
        · exact hbase
  | listRuns a f r rs =>
      show (mapGet (handleListDeploymentRuns st a f r rs).st.runServerMap
        k).isSome = true
      have hbase := isSome_runMap_getServerUrlForApp st a f r k h
      unfold handleListDeploymentRuns
      dsimp only
      split
      · exact hbase
      · split
        · exact hbase
        · exact isSome_mapGet_foldl_cacheRunId _ k _ _ hbase
  | listServersOp f =>
      show (mapGet (handleListServers st f).st.runServerMap k).isSome = true
      unfold handleListServers
      split
      · exact h
      · exact h
  | listAppsOp f r =>
      show (mapGet (handleListApps st f r).st.runServerMap k).isSome = true
      rw [handleListApps_runMap st f r]
      exact h
  | appInfo a f r i =>
      show (mapGet (handleGetAppInfo st a f r i).st.runServerMap k).isSome
        = true
      have hbase := isSome_runMap_getServerUrlForApp st a f r k h
      unfold handleGetAppInfo
      dsimp only
      split
      · exact hbase
      · split
        · exact hbase
        · exact hbase

/-- C9 counterexample: listing `blog`'s runs on server `b` while run `r1`
is already mapped to server `a`'s URL overwrites the entry with `b`'s URL,
so the prior entry is not left unchanged by a non-authentication
operation. -/
theorem runServerMap_overwrite_cex :
    mapGet stRuns.runServerMap "r1" = some "https://a.example.com" ∧
    mapGet (runOp opRunsB stRuns).runServerMap "r1" =
      some "https://b.example.com" ∧
    ("https://a.example.com" : String) ≠ "https://b.example.com" :=
  ⟨rfl, by decide, by decide⟩

/-- C9 witness: after the run-listing operation, the previously known run
id `r1` is still mapped. -/
theorem runServerMap_keys_monotone_witness :
    (mapGet (runOp opRunsB stRuns).runServerMap "r1").isSome = true :=
  runServerMap_keys_monotone opRunsB stRuns "r1" (by decide)

end CitizenMCP
